import Mathlib

/-!
Verification of the file-content ingestion pipeline (`createReadTool` in
`src/tools/read.ts`) of the octo-agent repository.

Modelling conventions:
* JavaScript strings are modelled as `List Char` (abbreviated `Str`); the
  JavaScript `split("\n")` on a one-character separator is `List.splitOn '\n'`
  and `join("\n")` is `List.intercalate ['\n']`.
* `Buffer.byteLength(s, "utf-8")` is the sum of the UTF-8 sizes of the
  characters of `s` (`utf8Len`).
* The asynchronous promise pipeline is modelled as a total function returning
  `Except Str (List ContentPart)`; `Except.error` models `reject`,
  `Except.ok` models `resolve`.
* The collaborators `resizeImage` / `formatDimensionNote` (from
  `./utils/resize-image`, not among the sources) are passed as explicit
  function arguments, exactly as the spec's design notes recommend for the
  pluggable operations.
-/

/-- Model of a JavaScript string: a list of characters. -/
abbrev Str := List Char

/-- `Buffer.byteLength(s, "utf-8")`: total UTF-8 byte size of a string. -/
def utf8Len (s : Str) : Nat := (s.map Char.utf8Size).sum

/-- Characters of a Lean string literal, used to transcribe the literal
strings of the source. -/
def lit (s : String) : Str := s.data

/-- Decimal rendering of a number, as interpolated into messages. -/
def strOfNat (n : Nat) : Str := (toString n).data

/-- Default line cap of the truncation engine (`DEFAULT_MAX_LINES` from
`./utils/truncate`; value 2000 per the spec's worked example). -/
def DEFAULT_MAX_LINES : Nat := 2000

/-- Default byte cap of the truncation engine (`DEFAULT_MAX_BYTES` from
`./utils/truncate`; 30 KiB per the spec's worked example and the source's
"exceeds 30KB" comment). -/
def DEFAULT_MAX_BYTES : Nat := 30 * 1024

/-- Which cap stopped the truncation (`truncatedBy` field). -/
inductive TruncatedBy where
  | lines
  | bytes
deriving DecidableEq, Repr

/-- `TruncationResult` produced by `truncateHead` (`./utils/truncate`). -/
structure TruncationResult where
  content : Str
  outputLines : Nat
  truncated : Bool
  truncatedBy : Option TruncatedBy
  firstLineExceedsLimit : Bool
deriving DecidableEq, Repr

/-- Modelled from the spec: the accumulation loop of the TruncationEngine
(`truncateHead` in `./utils/truncate` is not among the sources).  Lines are
accumulated from the start "until either the line-count cap or the byte-size
cap would be exceeded by adding the next line, whichever happens first";
the result is the fully-included lines together with the cap that stopped
the accumulation (`none` when the whole input fit). `count` is the number of
lines already taken and `size` the byte size of their `"\n"`-join. -/
def takeLines (maxLines maxBytes : Nat) : List Str → Nat → Nat → List Str × Option TruncatedBy
  | [], _, _ => ([], none)
  | l :: ls, count, size =>
    if maxLines ≤ count then
      ([], some TruncatedBy.lines)
    else
      let newSize := if count = 0 then utf8Len l else size + 1 + utf8Len l
      if maxBytes < newSize then
        ([], some TruncatedBy.bytes)
      else
        let rest := takeLines maxLines maxBytes ls (count + 1) newSize
        (l :: rest.1, rest.2)

/-- Modelled from the spec: `truncateHead` of `./utils/truncate` (not among
the sources).  "If the very first line alone exceeds the byte cap, no
truncation is attempted: report `firstLineExceedsLimit = true` and emit no
content"; otherwise accumulate whole lines under both caps and "record which
cap triggered the stop (`truncatedBy`), or none if the whole input fit". -/
def truncateHead (text : Str) : TruncationResult :=
  let ls := text.splitOn '\n'
  if DEFAULT_MAX_BYTES < utf8Len (ls.headD []) then
    { content := [], outputLines := 0, truncated := false, truncatedBy := none,
      firstLineExceedsLimit := true }
  else
    let taken := takeLines DEFAULT_MAX_LINES DEFAULT_MAX_BYTES ls 0 0
    { content := List.intercalate ['\n'] taken.1, outputLines := taken.1.length,
      truncated := taken.2.isSome, truncatedBy := taken.2,
      firstLineExceedsLimit := false }

/-- Modelled from the spec: `formatSize` of `./utils/truncate` (not among the
sources); byte sizes are "expressed in kibibytes". -/
def formatSize (n : Nat) : Str :=
  if 1024 ≤ n then strOfNat (n / 1024) ++ lit "KB" else strOfNat n ++ lit "B"

/-- One atomic unit of the tool result: `TextPart` or `ImagePart`. -/
inductive ContentPart where
  | text (text : Str)
  | image (image : Str) (mimeType : Str)
deriving DecidableEq, Repr

/-- Error message of `read.ts` line 168:
`Offset ${offset} is beyond end of file (${allLines.length} lines total)`.
A missing `offset` prints as JavaScript `undefined` (that branch is in fact
unreachable, see `readText_no_offset_ok`). -/
def offsetErrorMsg (offset : Option Nat) (total : Nat) : Str :=
  lit "Offset " ++
    (match offset with
      | some o => strOfNat o
      | none => lit "undefined") ++
    lit " is beyond end of file (" ++ strOfNat total ++ lit " lines total)"

/-- Redirect message of `read.ts` line 190, emitted when the first line at the
requested offset exceeds the byte cap. -/
def firstLineMsg (path : Str) (startLineDisplay firstLineBytes : Nat) : Str :=
  lit "[Line " ++ strOfNat startLineDisplay ++ lit " is " ++
    formatSize firstLineBytes ++ lit ", exceeds " ++ formatSize DEFAULT_MAX_BYTES ++
    lit " limit. Use bash: sed -n '" ++ strOfNat startLineDisplay ++ lit "p' " ++
    path ++ lit " | head -c " ++ strOfNat DEFAULT_MAX_BYTES ++ lit "]"

/-- Annotation of `read.ts` line 199 (line cap triggered). -/
def linesCapNote (startLineDisplay endLineDisplay totalFileLines nextOffset : Nat) : Str :=
  lit "\n\n[Showing lines " ++ strOfNat startLineDisplay ++ lit "-" ++
    strOfNat endLineDisplay ++ lit " of " ++ strOfNat totalFileLines ++
    lit ". Use offset=" ++ strOfNat nextOffset ++ lit " to continue.]"

/-- Annotation of `read.ts` line 201 (byte cap triggered). -/
def bytesCapNote (startLineDisplay endLineDisplay totalFileLines nextOffset : Nat) : Str :=
  lit "\n\n[Showing lines " ++ strOfNat startLineDisplay ++ lit "-" ++
    strOfNat endLineDisplay ++ lit " of " ++ strOfNat totalFileLines ++
    lit " (" ++ formatSize DEFAULT_MAX_BYTES ++ lit " limit). Use offset=" ++
    strOfNat nextOffset ++ lit " to continue.]"

/-- Annotation of `read.ts` line 209 (user limit left unread lines, no cap). -/
def moreLinesNote (remaining nextOffset : Nat) : Str :=
  lit "\n\n[" ++ strOfNat remaining ++ lit " more lines in file. Use offset=" ++
    strOfNat nextOffset ++ lit " to continue.]"

/-- `read.ts` line 163: `offset ? Math.max(0, offset - 1) : 0` (1-indexed to
0-indexed).  For naturals, truncated subtraction `o - 1` equals
`max 0 (o - 1)`, and for `o = 0` (falsy in JavaScript) both give 0. -/
def startLineOf : Option Nat → Nat
  | none => 0
  | some o => o - 1

/-- `read.ts` lines 174-180: the candidate slice of lines
(`allLines.slice(startLine, endLine)` with `endLine = min(startLine + limit,
allLines.length)` when a limit is given, else `allLines.slice(startLine)`). -/
def selLinesOf (allLines : List Str) (startLine : Nat) : Option Nat → List Str
  | some lim => (allLines.drop startLine).take (min (startLine + lim) allLines.length - startLine)
  | none => allLines.drop startLine

/-- `read.ts` line 177: `userLimitedLines = endLine - startLine` when a limit
is given, else `undefined`. -/
def userLimitedOf (allLines : List Str) (startLine : Nat) : Option Nat → Option Nat
  | some lim => some (min (startLine + lim) allLines.length - startLine)
  | none => none

/-- `read.ts` lines 185-213: assemble the output text from the truncation
outcome, following the source's branch order exactly. -/
def formatOutput (path : Str) (startLine totalFileLines : Nat)
    (userLimitedLines : Option Nat) (firstLineBytes : Nat) (t : TruncationResult) : Str :=
  let startLineDisplay := startLine + 1
  if t.firstLineExceedsLimit then
    firstLineMsg path startLineDisplay firstLineBytes
  else if t.truncated then
    let endLineDisplay := startLineDisplay + t.outputLines - 1
    let nextOffset := endLineDisplay + 1
    if t.truncatedBy = some TruncatedBy.lines then
      t.content ++ linesCapNote startLineDisplay endLineDisplay totalFileLines nextOffset
    else
      t.content ++ bytesCapNote startLineDisplay endLineDisplay totalFileLines nextOffset
  else
    match userLimitedLines with
    | some u =>
      if startLine + u < totalFileLines then
        t.content ++ moreLinesNote (totalFileLines - (startLine + u)) (startLine + u + 1)
      else
        t.content
    | none => t.content

/-- The text branch of `read.ts` (lines 155-215): split the decoded buffer on
`"\n"`, reject an offset at or beyond the end of file, slice by
offset/limit, re-join, truncate, and format a single text part. -/
def readText (path fileText : Str) (offset limit : Option Nat) :
    Except Str (List ContentPart) :=
  let allLines := fileText.splitOn '\n'
  let totalFileLines := allLines.length
  let startLine := startLineOf offset
  if totalFileLines ≤ startLine then
    Except.error (offsetErrorMsg offset totalFileLines)
  else
    let selectedContent := List.intercalate ['\n'] (selLinesOf allLines startLine limit)
    let truncation := truncateHead selectedContent
    let out := formatOutput path startLine totalFileLines
      (userLimitedOf allLines startLine limit) (utf8Len (allLines.getD startLine []))
      truncation
    Except.ok [ContentPart.text out]

/-- The selected slice of a read, as a joined string
(`selectedContent` of `read.ts` lines 172-180). -/
def selContentOf (fileText : Str) (offset limit : Option Nat) : Str :=
  List.intercalate ['\n'] (selLinesOf (fileText.splitOn '\n') (startLineOf offset) limit)

/-- The truncation outcome a read computes
(`truncation` of `read.ts` line 183). -/
def truncOf (fileText : Str) (offset limit : Option Nat) : TruncationResult :=
  truncateHead (selContentOf fileText offset limit)

/-- Result of `resizeImage` (`./utils/resize-image`, an injected collaborator):
the transport-ready data and MIME type of the (possibly downsized) image. -/
structure ResizedImage where
  data : Str
  mimeType : Str
deriving DecidableEq, Repr

/-- Text note of the image branch (`read.ts` lines 139-142 and 149):
`Read image file [${mimeType}]`, with the dimension note appended on its own
line when present. -/
def imageNote (mimeType : Str) (dimensionNote : Option Str) : Str :=
  let base := lit "Read image file [" ++ mimeType ++ lit "]"
  match dimensionNote with
  | some d => base ++ lit "\n" ++ d
  | none => base

/-- Console log of the debug-copy block (`read.ts` lines 126-135): the
`try`/`catch` around `mkdir`/`writeFile` logs success or failure and
continues either way. -/
def debugLog (debugWriteOk : Bool) (debugPath : Str) : Str :=
  if debugWriteOk then lit "[ReadTool] Saved debug image to " ++ debugPath
  else lit "[ReadTool] Failed to save debug image:"

/-- Image branch of `read.ts` (lines 115-154): parts returned for a detected
image, together with the console log produced by the debug-copy block.
`resize` and `dimNote` are the injected `resizeImage` / `formatDimensionNote`
collaborators; `debugWriteOk` tells whether the debug write inside the
swallowed `try`/`catch` succeeded. -/
def imageContent (resize : Str → Str → ResizedImage) (dimNote : ResizedImage → Option Str)
    (autoResizeImages debugWriteOk : Bool) (debugPath base64 mimeType : Str) :
    List ContentPart × List Str :=
  if autoResizeImages then
    let resized := resize base64 mimeType
    ([ContentPart.text (imageNote resized.mimeType (dimNote resized)),
      ContentPart.image resized.data resized.mimeType],
     [debugLog debugWriteOk debugPath])
  else
    ([ContentPart.text (imageNote mimeType none), ContentPart.image base64 mimeType], [])

/-- The two decodings `read.ts` takes of the one buffer returned by
`ops.readFile`: `buffer.toString("base64")` (image branch) and
`buffer.toString("utf-8")` (text branch). -/
structure FileModel where
  base64 : Str
  text : Str

/-- The body of `execute` after a successful access check (`read.ts` lines
109-216): dispatch on the detected MIME type into the image or text branch. -/
def readExecute (resize : Str → Str → ResizedImage) (dimNote : ResizedImage → Option Str)
    (autoResizeImages debugWriteOk : Bool) (path : Str) (detectedMime : Option Str)
    (file : FileModel) (offset limit : Option Nat) : Except Str (List ContentPart) :=
  match detectedMime with
  | some mimeType =>
    Except.ok (imageContent resize dimNote autoResizeImages debugWriteOk path
      file.base64 mimeType).1
  | none => readText path file.text offset limit

-- Decidable equality on results, used to settle concrete runs by decide.
deriving instance DecidableEq for Except

/-- The abort-listener registration of `read.ts` (lines 92-96) is commented
out in the source: nothing ever sets the per-call `aborted` flag. -/
def abortHandlerWired : Bool := false

/-- The promise of `read.ts` lines 85-241 including its cancellation checks
(lines 104-107, 218-221 and 235-237): when `aborted` is true the pipeline
returns without resolving or rejecting (`none`); otherwise it resolves or
rejects with the computed result (`some`).  `aborted` can only be true if the
abort signal fired and the (commented-out) listener were wired. -/
def readExecuteWithAbort (resize : Str → Str → ResizedImage)
    (dimNote : ResizedImage → Option Str) (autoResizeImages debugWriteOk : Bool)
    (path : Str) (detectedMime : Option Str) (file : FileModel)
    (offset limit : Option Nat) (abortFired : Bool) :
    Option (Except Str (List ContentPart)) :=
  let aborted := abortFired && abortHandlerWired
  if aborted then none
  else some (readExecute resize dimNote autoResizeImages debugWriteOk path detectedMime
    file offset limit)

/-! ## Helper lemmas -/

/-- Sum of the `"\n"`-join contributions of lines appended after the first
one: each later line adds one separator byte plus its own bytes. -/
def plusLen (ls : List Str) : Nat := (ls.map (fun l => 1 + utf8Len l)).sum

/-- Byte-cap admissibility of the accumulation loop: starting from
`count`/`size`, every intermediate size stays within `maxBytes`. -/
def fits (maxBytes : Nat) : List Str → Nat → Nat → Prop
  | [], _, _ => True
  | l :: ls, count, size =>
    let newSize := if count = 0 then utf8Len l else size + 1 + utf8Len l
    newSize ≤ maxBytes ∧ fits maxBytes ls (count + 1) newSize

theorem plusLen_cons (l : Str) (ls : List Str) :
    plusLen (l :: ls) = 1 + utf8Len l + plusLen ls := by
  simp only [plusLen, List.map_cons, List.sum_cons]

theorem utf8Len_append (a b : Str) : utf8Len (a ++ b) = utf8Len a + utf8Len b := by
  simp [utf8Len]

theorem utf8Len_intercalate_cons (l : Str) (ls : List Str) :
    utf8Len (List.intercalate ['\n'] (l :: ls)) = utf8Len l + plusLen ls := by
  induction ls generalizing l with
  | nil => simp [List.intercalate, plusLen, List.flatten]
  | cons l2 ls ih =>
    have h : List.intercalate ['\n'] (l :: l2 :: ls) =
        l ++ '\n' :: List.intercalate ['\n'] (l2 :: ls) := by
      simp [List.intercalate, List.intersperse_cons_cons, List.flatten]
    have hnl : Char.utf8Size '\n' = 1 := by decide
    have hc : utf8Len ('\n' :: List.intercalate ['\n'] (l2 :: ls)) =
        1 + utf8Len (List.intercalate ['\n'] (l2 :: ls)) := by
      simp [utf8Len, hnl]
    rw [h, utf8Len_append, hc, ih l2, plusLen_cons]
    omega

theorem fits_of_plusLen_pos (maxB : Nat) (ls : List Str) :
    ∀ c s, 1 ≤ c → s + plusLen ls ≤ maxB → fits maxB ls c s := by
  induction ls with
  | nil => intro c s _ _; trivial
  | cons l ls ih =>
    intro c s hc h
    have hplus := plusLen_cons l ls
    have hc0 : ¬ c = 0 := by omega
    show (if c = 0 then utf8Len l else s + 1 + utf8Len l) ≤ maxB ∧
      fits maxB ls (c + 1) (if c = 0 then utf8Len l else s + 1 + utf8Len l)
    rw [if_neg hc0]
    exact ⟨by omega, ih (c + 1) (s + 1 + utf8Len l) (by omega) (by omega)⟩

theorem fits_zero (maxB : Nat) (l : Str) (ls : List Str)
    (h : utf8Len l + plusLen ls ≤ maxB) : fits maxB (l :: ls) 0 0 := by
  show (if 0 = 0 then utf8Len l else 0 + 1 + utf8Len l) ≤ maxB ∧
      fits maxB ls (0 + 1) (if 0 = 0 then utf8Len l else 0 + 1 + utf8Len l)
  rw [if_pos rfl]
  exact ⟨by omega, fits_of_plusLen_pos maxB ls 1 (utf8Len l) (by omega) (by omega)⟩

theorem takeLines_all (m maxB : Nat) (ls : List Str) :
    ∀ c s, c + ls.length ≤ m → fits maxB ls c s →
    takeLines m maxB ls c s = (ls, none) := by
  induction ls with
  | nil => intro c s _ _; rfl
  | cons l ls ih =>
    intro c s hm hf
    obtain ⟨h1, h2⟩ := hf
    simp only [List.length_cons] at hm
    simp only [takeLines]
    rw [if_neg (by omega : ¬ m ≤ c), if_neg (by simpa using h1 : ¬ maxB < _)]
    simp only [ih (c + 1) _ (by omega) h2]

theorem takeLines_snd_none (m maxB : Nat) (ls : List Str) :
    ∀ c s, (takeLines m maxB ls c s).2 = none →
    (takeLines m maxB ls c s).1 = ls := by
  induction ls with
  | nil => intro c s _; rfl
  | cons l ls ih =>
    intro c s h
    simp only [takeLines] at h ⊢
    by_cases h1 : m ≤ c
    · rw [if_pos h1] at h
      simp at h
    · rw [if_neg h1] at h ⊢
      by_cases h2 : maxB < (if c = 0 then utf8Len l else s + 1 + utf8Len l)
      · rw [if_pos h2] at h
        simp at h
      · rw [if_neg h2] at h ⊢
        simpa using ih (c + 1) _ (by simpa using h)

theorem takeLines_fst_take (m maxB : Nat) (ls : List Str) :
    ∀ c s, ∃ k, (takeLines m maxB ls c s).1 = ls.take k := by
  induction ls with
  | nil => intro c s; exact ⟨0, rfl⟩
  | cons l ls ih =>
    intro c s
    simp only [takeLines]
    by_cases h1 : m ≤ c
    · rw [if_pos h1]; exact ⟨0, rfl⟩
    · rw [if_neg h1]
      by_cases h2 : maxB < (if c = 0 then utf8Len l else s + 1 + utf8Len l)
      · rw [if_pos h2]; exact ⟨0, rfl⟩
      · rw [if_neg h2]
        obtain ⟨k, hk⟩ := ih (c + 1) (if c = 0 then utf8Len l else s + 1 + utf8Len l)
        exact ⟨k + 1, by simp [hk]⟩

theorem takeLines_linesCap (m maxB : Nat) (ls : List Str) :
    ∀ c s, m - c < ls.length → fits maxB (ls.take (m - c)) c s →
    takeLines m maxB ls c s = (ls.take (m - c), some TruncatedBy.lines) := by
  induction ls with
  | nil => intro c s h _; simp at h
  | cons l ls ih =>
    intro c s hlen hf
    simp only [takeLines]
    by_cases h1 : m ≤ c
    · rw [if_pos h1]
      have h0 : m - c = 0 := by omega
      rw [h0, List.take_zero]
    · rw [if_neg h1]
      have hmc : m - c = (m - (c + 1)) + 1 := by omega
      rw [hmc, List.take_succ_cons] at hf ⊢
      obtain ⟨hs, hrest⟩ := hf
      rw [if_neg (by simpa using hs : ¬ maxB < _)]
      have hlen2 : m - (c + 1) < ls.length := by
        simp only [List.length_cons] at hlen
        omega
      simp [ih (c + 1) _ hlen2 hrest]

theorem splitOnP_all_false {α : Type} (p : α → Bool) (xs : List α) :
    ∀ l ∈ xs.splitOnP p, ∀ a ∈ l, p a = false := by
  induction xs with
  | nil =>
    intro l hl a ha
    rw [List.splitOnP_nil] at hl
    simp at hl
    subst hl
    simp at ha
  | cons x xs ih =>
    intro l hl a ha
    rw [List.splitOnP_cons] at hl
    by_cases hx : p x
    · rw [if_pos hx] at hl
      rcases List.mem_cons.mp hl with h | h
      · subst h; simp at ha
      · exact ih l h a ha
    · rw [if_neg hx] at hl
      rcases hsp : xs.splitOnP p with _ | ⟨hd, tl⟩
      · exact absurd hsp (List.splitOnP_ne_nil p xs)
      · rw [hsp, List.modifyHead_cons] at hl
        rcases List.mem_cons.mp hl with h | h
        · subst h
          rcases List.mem_cons.mp ha with h' | h'
          · subst h'
            exact Bool.eq_false_iff.mpr hx
          · exact ih hd (by rw [hsp]; exact List.mem_cons_self hd tl) a h'
        · exact ih l (by rw [hsp]; exact List.mem_cons_of_mem hd h) a ha

theorem mem_splitOn_char (xs l : Str) (h : l ∈ xs.splitOn '\n') : '\n' ∉ l := by
  intro hmem
  have := splitOnP_all_false (· == '\n') xs l h '\n' hmem
  simp at this

theorem splitOn_char_ne_nil (xs : Str) : xs.splitOn '\n' ≠ [] :=
  List.splitOnP_ne_nil _ xs

theorem splitOn_char_length_pos (xs : Str) : 0 < (xs.splitOn '\n').length :=
  List.length_pos.mpr (splitOn_char_ne_nil xs)

theorem readText_err (path fileText : Str) (offset limit : Option Nat)
    (h : (fileText.splitOn '\n').length ≤ startLineOf offset) :
    readText path fileText offset limit =
      Except.error (offsetErrorMsg offset (fileText.splitOn '\n').length) := by
  simp only [readText]
  rw [if_pos h]

theorem readText_ok (path fileText : Str) (offset limit : Option Nat)
    (h : startLineOf offset < (fileText.splitOn '\n').length) :
    readText path fileText offset limit =
      Except.ok [ContentPart.text (formatOutput path (startLineOf offset)
        (fileText.splitOn '\n').length
        (userLimitedOf (fileText.splitOn '\n') (startLineOf offset) limit)
        (utf8Len ((fileText.splitOn '\n').getD (startLineOf offset) []))
        (truncateHead (List.intercalate ['\n']
          (selLinesOf (fileText.splitOn '\n') (startLineOf offset) limit))))] := by
  simp only [readText]
  rw [if_neg (by omega)]

theorem readText_no_offset_ok (path fileText : Str) (limit : Option Nat) :
    ∃ out, readText path fileText none limit = Except.ok [ContentPart.text out] :=
  ⟨_, readText_ok path fileText none limit (splitOn_char_length_pos fileText)⟩

theorem intercalate_single (s : Str) (a : Str) : List.intercalate s [a] = a := by
  simp [List.intercalate, List.flatten]

theorem count_char_intercalate (ls : List Str) :
    (∀ l ∈ ls, '\n' ∉ l) → ls ≠ [] →
    (List.intercalate ['\n'] ls).count '\n' = ls.length - 1 := by
  induction ls with
  | nil => intro _ hne; exact absurd rfl hne
  | cons l ls ih =>
    intro h _
    cases ls with
    | nil =>
      rw [intercalate_single]
      simp [List.count_eq_zero.mpr (h l (List.mem_cons_self l []))]
    | cons l2 ls2 =>
      have hstep : List.intercalate ['\n'] (l :: l2 :: ls2) =
          l ++ '\n' :: List.intercalate ['\n'] (l2 :: ls2) := by
        simp [List.intercalate, List.intersperse_cons_cons, List.flatten]
      rw [hstep, List.count_append]
      rw [List.count_eq_zero.mpr (h l (List.mem_cons_self l _))]
      have ih2 := ih (fun x hx => h x (List.mem_cons_of_mem l hx)) (by simp)
      simp only [List.count_cons_self, ih2]
      simp

/-- C2: for a text file, an offset strictly greater than the total line count
fails with the error naming the requested offset and the total line count
(no parts are produced), while any positive offset at most the total line
count never produces that error: the read resolves with a text part. -/
theorem C2_offset_bounds (path fileText : Str) (o : Nat) (limit : Option Nat) :
    ((fileText.splitOn '\n').length < o →
      readText path fileText (some o) limit =
        Except.error (offsetErrorMsg (some o) (fileText.splitOn '\n').length)) ∧
    (1 ≤ o → o ≤ (fileText.splitOn '\n').length →
      ∃ out, readText path fileText (some o) limit =
        Except.ok [ContentPart.text out]) := by
  constructor
  · intro h
    exact readText_err path fileText (some o) limit (by simp [startLineOf]; omega)
  · intro h1 h2
    exact ⟨_, readText_ok path fileText (some o) limit (by simp [startLineOf]; omega)⟩

/-- Witness for `C2_offset_bounds`: a two-line file read at offset 3 fails
with the out-of-bounds message, and at offset 2 resolves with a text part. -/
theorem C2_offset_bounds_witness :
    (((lit "a\nb").splitOn '\n').length < 3 ∧
      readText (lit "f.txt") (lit "a\nb") (some 3) none =
        Except.error (offsetErrorMsg (some 3) ((lit "a\nb").splitOn '\n').length)) ∧
    (∃ out, readText (lit "f.txt") (lit "a\nb") (some 2) none =
        Except.ok [ContentPart.text out]) :=
  ⟨⟨by decide, (C2_offset_bounds (lit "f.txt") (lit "a\nb") 3 none).1 (by decide)⟩,
    (C2_offset_bounds (lit "f.txt") (lit "a\nb") 2 none).2 (by decide) (by decide)⟩

/-- C9: a file whose content ends with a newline splits into one more line
than it has newline characters (the empty string after the final newline
counts as a line), so on `N` newline-terminated lines the reported total is
`N + 1` and a request with `offset = N + 1` succeeds, returning the empty
final line rather than the out-of-bounds error. -/
theorem C9_trailing_newline (path : Str) (lns : List Str)
    (h : ∀ l ∈ lns, '\n' ∉ l) (hne : lns ≠ []) :
    ((List.intercalate ['\n'] (lns ++ [[]])).splitOn '\n').length =
      (List.intercalate ['\n'] (lns ++ [[]])).count '\n' + 1 ∧
    readText path (List.intercalate ['\n'] (lns ++ [[]])) (some (lns.length + 1)) none =
      Except.ok [ContentPart.text []] := by
  have hmem : ∀ l ∈ lns ++ [[]], '\n' ∉ l := by
    intro l hl
    rcases List.mem_append.mp hl with h1 | h1
    · exact h l h1
    · simp at h1
      subst h1
      simp
  have happne : lns ++ [([] : Str)] ≠ [] := by simp
  have hsplit : (List.intercalate ['\n'] (lns ++ [[]])).splitOn '\n' = lns ++ [[]] :=
    List.splitOn_intercalate (lns ++ [[]]) '\n' hmem happne
  have hlen : (lns ++ [([] : Str)]).length = lns.length + 1 := by simp
  constructor
  · rw [hsplit, hlen, count_char_intercalate (lns ++ [[]]) hmem happne, hlen]
    omega
  · have hlt : startLineOf (some (lns.length + 1)) <
        ((List.intercalate ['\n'] (lns ++ [[]])).splitOn '\n').length := by
      rw [hsplit, hlen]
      simp [startLineOf]
    rw [readText_ok _ _ _ _ hlt, hsplit]
    have hsel : selLinesOf (lns ++ [[]]) (startLineOf (some (lns.length + 1))) none =
        [[]] := by
      simp only [selLinesOf, startLineOf, Nat.add_sub_cancel]
      exact List.drop_left lns [[]]
    rw [hsel]
    have hout : formatOutput path (startLineOf (some (lns.length + 1)))
        (lns ++ [([] : Str)]).length
        (userLimitedOf (lns ++ [[]]) (startLineOf (some (lns.length + 1))) none)
        (utf8Len ((lns ++ [[]]).getD (startLineOf (some (lns.length + 1))) []))
        (truncateHead (List.intercalate ['\n'] [[]])) = [] := by
      rw [intercalate_single]
      have ht : truncateHead [] =
          { content := [], outputLines := 1, truncated := false, truncatedBy := none,
            firstLineExceedsLimit := false } := by decide
      rw [ht]
      simp [formatOutput, userLimitedOf]
    rw [hout]

/-- Witness for `C9_trailing_newline`: the two-line newline-terminated file
"a\nb\n" reports 3 total lines (2 newlines + 1) and offset 3 succeeds with
the empty final line. -/
theorem C9_trailing_newline_witness :
    (∀ l ∈ [lit "a", lit "b"], '\n' ∉ l) ∧
    ((List.intercalate ['\n'] ([lit "a", lit "b"] ++ [[]])).splitOn '\n').length =
      (List.intercalate ['\n'] ([lit "a", lit "b"] ++ [[]])).count '\n' + 1 ∧
    readText (lit "f.txt") (List.intercalate ['\n'] ([lit "a", lit "b"] ++ [[]]))
      (some ([lit "a", lit "b"].length + 1)) none = Except.ok [ContentPart.text []] :=
  ⟨by decide,
    (C9_trailing_newline (lit "f.txt") [lit "a", lit "b"] (by decide) (by decide)).1,
    (C9_trailing_newline (lit "f.txt") [lit "a", lit "b"] (by decide) (by decide)).2⟩

theorem truncateHead_all (text : Str)
    (hlines : (text.splitOn '\n').length ≤ DEFAULT_MAX_LINES)
    (hbytes : utf8Len text ≤ DEFAULT_MAX_BYTES) :
    truncateHead text =
      { content := text, outputLines := (text.splitOn '\n').length, truncated := false,
        truncatedBy := none, firstLineExceedsLimit := false } := by
  rcases hls : text.splitOn '\n' with _ | ⟨l0, rest⟩
  · exact absurd hls (splitOn_char_ne_nil text)
  · have hsp := List.intercalate_splitOn text '\n'
    rw [hls] at hsp
    have hsum : utf8Len text = utf8Len l0 + plusLen rest := by
      rw [← hsp, utf8Len_intercalate_cons]
    have htake : takeLines DEFAULT_MAX_LINES DEFAULT_MAX_BYTES (l0 :: rest) 0 0 =
        (l0 :: rest, none) := by
      apply takeLines_all
      · rw [hls] at hlines
        omega
      · exact fits_zero _ l0 rest (by omega)
    simp only [truncateHead, hls, List.headD_cons]
    rw [if_neg (by omega : ¬ DEFAULT_MAX_BYTES < utf8Len l0), htake]
    simp [hsp]

/-- C4: a text file within both default caps, read with no offset and no
limit, yields exactly the file's full content as the single text part, with
no annotation appended. -/
theorem C4_full_read (path fileText : Str)
    (hlines : (fileText.splitOn '\n').length ≤ DEFAULT_MAX_LINES)
    (hbytes : utf8Len fileText ≤ DEFAULT_MAX_BYTES) :
    readText path fileText none none = Except.ok [ContentPart.text fileText] := by
  rw [readText_ok path fileText none none (splitOn_char_length_pos fileText)]
  have hsel : selLinesOf (fileText.splitOn '\n') (startLineOf none) none =
      fileText.splitOn '\n' := by
    simp [selLinesOf, startLineOf]
  rw [hsel, List.intercalate_splitOn fileText '\n', truncateHead_all fileText hlines hbytes]
  simp [formatOutput, userLimitedOf, startLineOf]

/-- Witness for `C4_full_read`: a small two-line file is returned verbatim. -/
theorem C4_full_read_witness :
    (((lit "ab\ncd").splitOn '\n').length ≤ DEFAULT_MAX_LINES ∧
      utf8Len (lit "ab\ncd") ≤ DEFAULT_MAX_BYTES) ∧
    readText (lit "f.txt") (lit "ab\ncd") none none =
      Except.ok [ContentPart.text (lit "ab\ncd")] :=
  ⟨⟨by decide, by decide⟩, C4_full_read (lit "f.txt") (lit "ab\ncd") (by decide) (by decide)⟩

theorem truncateHead_not_trunc (text : Str)
    (hfl : (truncateHead text).firstLineExceedsLimit = false)
    (htr : (truncateHead text).truncated = false) :
    (truncateHead text).content = text ∧
    (truncateHead text).outputLines = (text.splitOn '\n').length := by
  by_cases hcond : DEFAULT_MAX_BYTES < utf8Len ((text.splitOn '\n').headD [])
  · simp only [truncateHead, if_pos hcond] at hfl
    exact absurd hfl (by simp)
  · simp only [truncateHead, if_neg hcond] at htr ⊢
    have hnone : (takeLines DEFAULT_MAX_LINES DEFAULT_MAX_BYTES (text.splitOn '\n') 0 0).2 =
        none := by
      rcases hopt : (takeLines DEFAULT_MAX_LINES DEFAULT_MAX_BYTES (text.splitOn '\n') 0 0).2
        with _ | r
      · rfl
      · rw [hopt] at htr
        simp at htr
    have h1 := takeLines_snd_none DEFAULT_MAX_LINES DEFAULT_MAX_BYTES (text.splitOn '\n')
      0 0 hnone
    rw [h1]
    exact ⟨List.intercalate_splitOn text '\n', rfl⟩

theorem mem_selLines (allLines : List Str) (start : Nat) (limit : Option Nat) :
    ∀ l ∈ selLinesOf allLines start limit, l ∈ allLines := by
  cases limit with
  | none => intro l hl; exact List.mem_of_mem_drop hl
  | some lim => intro l hl; exact List.mem_of_mem_drop (List.mem_of_mem_take hl)

theorem splitOn_selContent (fileText : Str) (start : Nat) (limit : Option Nat)
    (hne : selLinesOf (fileText.splitOn '\n') start limit ≠ []) :
    (List.intercalate ['\n'] (selLinesOf (fileText.splitOn '\n') start limit)).splitOn '\n' =
      selLinesOf (fileText.splitOn '\n') start limit :=
  List.splitOn_intercalate _ '\n'
    (fun l hl => mem_splitOn_char fileText l (mem_selLines _ _ _ l hl)) hne

theorem selLines_limit_length (allLines : List Str) (start lim : Nat)
    (h : start + lim < allLines.length) :
    (selLinesOf allLines start (some lim)).length = lim ∧
    userLimitedOf allLines start (some lim) = some lim := by
  have hmin : min (start + lim) allLines.length = start + lim := by omega
  constructor
  · simp only [selLinesOf, hmin, List.length_take, List.length_drop]
    omega
  · simp only [userLimitedOf, hmin]
    congr 1
    omega

/-- C5: a read with a user limit that leaves later lines unread while no cap
triggers returns exactly `limit` output lines, and appends the annotation
naming the remaining line count and the resume offset
`startLine + limit + 1`, i.e. the line after the last one displayed (for a
read from the start of the file this is `limit + 1`). -/
theorem C5_user_limit (path fileText : Str) (offset : Option Nat) (lim : Nat)
    (hlim : 1 ≤ lim)
    (hleft : startLineOf offset + lim < (fileText.splitOn '\n').length)
    (hfl : (truncateHead (List.intercalate ['\n']
      (selLinesOf (fileText.splitOn '\n') (startLineOf offset)
        (some lim)))).firstLineExceedsLimit = false)
    (htr : (truncateHead (List.intercalate ['\n']
      (selLinesOf (fileText.splitOn '\n') (startLineOf offset)
        (some lim)))).truncated = false) :
    (truncateHead (List.intercalate ['\n']
      (selLinesOf (fileText.splitOn '\n') (startLineOf offset)
        (some lim)))).outputLines = lim ∧
    readText path fileText offset (some lim) =
      Except.ok [ContentPart.text
        (List.intercalate ['\n']
          (selLinesOf (fileText.splitOn '\n') (startLineOf offset) (some lim)) ++
          moreLinesNote ((fileText.splitOn '\n').length - (startLineOf offset + lim))
            (startLineOf offset + lim + 1))] := by
  obtain ⟨hlen, hul⟩ :=
    selLines_limit_length (fileText.splitOn '\n') (startLineOf offset) lim hleft
  have hne : selLinesOf (fileText.splitOn '\n') (startLineOf offset) (some lim) ≠ [] := by
    intro hnil
    rw [hnil] at hlen
    simp at hlen
    omega
  obtain ⟨hcontent, houtl⟩ := truncateHead_not_trunc _ hfl htr
  have hsp := splitOn_selContent fileText (startLineOf offset) (some lim) hne
  refine ⟨by rw [houtl, hsp, hlen], ?_⟩
  rw [readText_ok path fileText offset (some lim) (by omega)]
  have hformat : formatOutput path (startLineOf offset) (fileText.splitOn '\n').length
      (userLimitedOf (fileText.splitOn '\n') (startLineOf offset) (some lim))
      (utf8Len ((fileText.splitOn '\n').getD (startLineOf offset) []))
      (truncateHead (List.intercalate ['\n']
        (selLinesOf (fileText.splitOn '\n') (startLineOf offset) (some lim)))) =
      List.intercalate ['\n']
        (selLinesOf (fileText.splitOn '\n') (startLineOf offset) (some lim)) ++
        moreLinesNote ((fileText.splitOn '\n').length - (startLineOf offset + lim))
          (startLineOf offset + lim + 1) := by
    rw [hul]
    simp only [formatOutput, hfl, htr, Bool.false_eq_true, if_false]
    rw [if_pos hleft, hcontent]
  rw [hformat]

/-- Witness for `C5_user_limit`: reading a four-line file with `limit = 2`
returns two lines plus the "2 more lines in file. Use offset=3" note. -/
theorem C5_user_limit_witness :
    (1 ≤ 2 ∧ startLineOf none + 2 < ((lit "a\nb\nc\nd").splitOn '\n').length ∧
      (truncateHead (List.intercalate ['\n']
        (selLinesOf ((lit "a\nb\nc\nd").splitOn '\n') (startLineOf none)
          (some 2)))).firstLineExceedsLimit = false ∧
      (truncateHead (List.intercalate ['\n']
        (selLinesOf ((lit "a\nb\nc\nd").splitOn '\n') (startLineOf none)
          (some 2)))).truncated = false) ∧
    (truncateHead (List.intercalate ['\n']
      (selLinesOf ((lit "a\nb\nc\nd").splitOn '\n') (startLineOf none)
        (some 2)))).outputLines = 2 ∧
    readText (lit "f.txt") (lit "a\nb\nc\nd") none (some 2) =
      Except.ok [ContentPart.text
        (List.intercalate ['\n']
          (selLinesOf ((lit "a\nb\nc\nd").splitOn '\n') (startLineOf none) (some 2)) ++
          moreLinesNote (((lit "a\nb\nc\nd").splitOn '\n').length - (startLineOf none + 2))
            (startLineOf none + 2 + 1))] :=
  ⟨⟨by decide, by decide, by decide, by decide⟩,
    C5_user_limit (lit "f.txt") (lit "a\nb\nc\nd") none 2
      (by decide) (by decide) (by decide) (by decide)⟩

theorem take_of_takeLines_fst (m maxB : Nat) (ls : List Str) (c s : Nat) :
    (takeLines m maxB ls c s).1 =
      ls.take (takeLines m maxB ls c s).1.length := by
  obtain ⟨k, hk⟩ := takeLines_fst_take m maxB ls c s
  rw [hk, List.length_take]
  rcases Nat.le_total k ls.length with h | h
  · rw [Nat.min_eq_left h]
  · rw [Nat.min_eq_right h, List.take_of_length_le h, List.take_of_length_le (Nat.le_refl _)]

theorem truncateHead_linesCap (text : Str)
    (h : (truncateHead text).truncatedBy = some TruncatedBy.lines) :
    (truncateHead text).firstLineExceedsLimit = false ∧
    (truncateHead text).truncated = true ∧
    (truncateHead text).content =
      List.intercalate ['\n'] ((text.splitOn '\n').take (truncateHead text).outputLines) := by
  by_cases hcond : DEFAULT_MAX_BYTES < utf8Len ((text.splitOn '\n').headD [])
  · simp only [truncateHead, if_pos hcond] at h
    exact absurd h (by simp)
  · simp only [truncateHead, if_neg hcond] at h ⊢
    refine ⟨by trivial, by rw [h]; rfl, ?_⟩
    rw [← take_of_takeLines_fst]

theorem plusLen_replicate (n : Nat) (l : Str) :
    plusLen (List.replicate n l) = n * (1 + utf8Len l) := by
  induction n with
  | zero => simp [plusLen]
  | succ n ih =>
    rw [List.replicate_succ, plusLen_cons, ih]
    ring

/-- C3: when the line cap stops the truncation, the emitted content ends at a
line boundary (it is the `"\n"`-join of the first `outputLines` selected
lines), `truncatedBy = lines`, and the appended annotation names the visible
line range `startLineDisplay..endLineDisplay`, the total line count, and the
next offset `endLineDisplay + 1` (one past the displayed last line); for the
spec's example of a 10,000-line file read from offset 1 under the 2000-line
cap this is the note "Showing lines 1-2000 of 10000. Use offset=2001 to
continue." (see the witness). -/
theorem C3_lines_cap (path fileText : Str) (offset limit : Option Nat)
    (hoff : startLineOf offset < (fileText.splitOn '\n').length)
    (hcap : (truncOf fileText offset limit).truncatedBy = some TruncatedBy.lines) :
    (truncOf fileText offset limit).content =
      List.intercalate ['\n'] (((selContentOf fileText offset limit).splitOn '\n').take
        (truncOf fileText offset limit).outputLines) ∧
    readText path fileText offset limit =
      Except.ok [ContentPart.text
        ((truncOf fileText offset limit).content ++
          linesCapNote (startLineOf offset + 1)
            (startLineOf offset + 1 + (truncOf fileText offset limit).outputLines - 1)
            (fileText.splitOn '\n').length
            (startLineOf offset + 1 + (truncOf fileText offset limit).outputLines - 1 + 1))] := by
  obtain ⟨hfl, htr, hcontent⟩ :=
    truncateHead_linesCap (selContentOf fileText offset limit) hcap
  refine ⟨hcontent, ?_⟩
  rw [readText_ok path fileText offset limit hoff]
  have hformat : formatOutput path (startLineOf offset) (fileText.splitOn '\n').length
      (userLimitedOf (fileText.splitOn '\n') (startLineOf offset) limit)
      (utf8Len ((fileText.splitOn '\n').getD (startLineOf offset) []))
      (truncateHead (List.intercalate ['\n']
        (selLinesOf (fileText.splitOn '\n') (startLineOf offset) limit))) =
      (truncOf fileText offset limit).content ++
        linesCapNote (startLineOf offset + 1)
          (startLineOf offset + 1 + (truncOf fileText offset limit).outputLines - 1)
          (fileText.splitOn '\n').length
          (startLineOf offset + 1 + (truncOf fileText offset limit).outputLines - 1 + 1) := by
    have hunfold : truncateHead (List.intercalate ['\n']
        (selLinesOf (fileText.splitOn '\n') (startLineOf offset) limit)) =
        truncOf fileText offset limit := rfl
    rw [hunfold]
    have hfl2 : (truncOf fileText offset limit).firstLineExceedsLimit = false := hfl
    have htr2 : (truncOf fileText offset limit).truncated = true := htr
    simp only [formatOutput, hfl2, htr2, Bool.false_eq_true, if_false, if_true]
    rw [if_pos hcap]
  rw [hformat]

/-- Witness for `C3_lines_cap`: the spec's example, a 10,000-line file read
from offset 1 under the 2000-line cap; the annotation instantiates to
"Showing lines 1-2000 of 10000. Use offset=2001 to continue.". -/
theorem C3_lines_cap_witness :
    (startLineOf (some 1) <
        ((List.intercalate ['\n'] (List.replicate 10000 (lit "a"))).splitOn '\n').length ∧
      (truncOf (List.intercalate ['\n'] (List.replicate 10000 (lit "a"))) (some 1)
        none).truncatedBy = some TruncatedBy.lines) ∧
    ((truncOf (List.intercalate ['\n'] (List.replicate 10000 (lit "a"))) (some 1)
        none).content =
      List.intercalate ['\n'] (((selContentOf
        (List.intercalate ['\n'] (List.replicate 10000 (lit "a"))) (some 1)
          none).splitOn '\n').take
        (truncOf (List.intercalate ['\n'] (List.replicate 10000 (lit "a"))) (some 1)
          none).outputLines) ∧
    readText (lit "big.txt") (List.intercalate ['\n'] (List.replicate 10000 (lit "a")))
        (some 1) none =
      Except.ok [ContentPart.text
        ((truncOf (List.intercalate ['\n'] (List.replicate 10000 (lit "a"))) (some 1)
          none).content ++
          linesCapNote (startLineOf (some 1) + 1)
            (startLineOf (some 1) + 1 +
              (truncOf (List.intercalate ['\n'] (List.replicate 10000 (lit "a"))) (some 1)
                none).outputLines - 1)
            ((List.intercalate ['\n']
              (List.replicate 10000 (lit "a"))).splitOn '\n').length
            (startLineOf (some 1) + 1 +
              (truncOf (List.intercalate ['\n'] (List.replicate 10000 (lit "a"))) (some 1)
                none).outputLines - 1 + 1))]) := by
  have hmem : ∀ l ∈ List.replicate 10000 (lit "a"), '\n' ∉ l := by
    intro l hl
    rw [List.eq_of_mem_replicate hl]
    decide
  have hsplit : (List.intercalate ['\n'] (List.replicate 10000 (lit "a"))).splitOn '\n' =
      List.replicate 10000 (lit "a") :=
    List.splitOn_intercalate _ '\n' hmem
      (List.ne_nil_of_length_pos (by rw [List.length_replicate]; omega))
  have hoff : startLineOf (some 1) <
      ((List.intercalate ['\n'] (List.replicate 10000 (lit "a"))).splitOn '\n').length := by
    rw [hsplit, List.length_replicate]
    decide
  have hsel : selContentOf (List.intercalate ['\n'] (List.replicate 10000 (lit "a")))
      (some 1) none = List.intercalate ['\n'] (List.replicate 10000 (lit "a")) := by
    simp only [selContentOf, hsplit, selLinesOf]
    have h0 : startLineOf (some 1) = 0 := rfl
    rw [h0, List.drop_zero]
  have htake : takeLines DEFAULT_MAX_LINES DEFAULT_MAX_BYTES
      (List.replicate 10000 (lit "a")) 0 0 =
      ((List.replicate 10000 (lit "a")).take (DEFAULT_MAX_LINES - 0),
        some TruncatedBy.lines) := by
    apply takeLines_linesCap
    · rw [List.length_replicate]
      decide
    · have ht : (List.replicate 10000 (lit "a")).take (DEFAULT_MAX_LINES - 0) =
          List.replicate 2000 (lit "a") := by
        rw [List.take_replicate]
        norm_num [DEFAULT_MAX_LINES]
      rw [ht]
      have h2000 : List.replicate 2000 (lit "a") = lit "a" :: List.replicate 1999 (lit "a") := by
        rw [← List.replicate_succ]
      rw [h2000]
      apply fits_zero
      rw [plusLen_replicate]
      have h1 : utf8Len (lit "a") = 1 := by decide
      rw [h1]
      norm_num [DEFAULT_MAX_BYTES]
  have hhead : ((List.replicate 10000 (lit "a")).headD ([] : Str)) = lit "a" := by
    have h9 : (10000 : Nat) = 9999 + 1 := by norm_num
    rw [h9, List.replicate_succ, List.headD_cons]
  have hcap : (truncOf (List.intercalate ['\n'] (List.replicate 10000 (lit "a"))) (some 1)
      none).truncatedBy = some TruncatedBy.lines := by
    show (truncateHead (selContentOf
      (List.intercalate ['\n'] (List.replicate 10000 (lit "a"))) (some 1)
        none)).truncatedBy = some TruncatedBy.lines
    rw [hsel]
    simp only [truncateHead, hsplit, hhead]
    rw [if_neg (by decide : ¬ DEFAULT_MAX_BYTES < utf8Len (lit "a")), htake]
  exact ⟨⟨hoff, hcap⟩,
    C3_lines_cap (lit "big.txt") (List.intercalate ['\n'] (List.replicate 10000 (lit "a")))
      (some 1) none hoff hcap⟩

theorem splitOn_eq_single_char (xs : Str) (h : '\n' ∉ xs) : xs.splitOn '\n' = [xs] := by
  simp only [List.splitOn]
  apply List.splitOnP_eq_single
  intro y hy
  simp only [beq_iff_eq]
  intro he
  exact h (he ▸ hy)

theorem utf8Len_replicate (n : Nat) (c : Char) :
    utf8Len (List.replicate n c) = n * c.utf8Size := by
  rw [utf8Len, List.map_replicate, List.sum_replicate, smul_eq_mul]

/-- C6: when the single line at the computed start position exceeds the byte
cap, the read still resolves (it does not throw): the result is a single
text part whose text is the redirect message, built only from the path, the
1-indexed start line and byte sizes — none of the file's content. -/
theorem C6_first_line_too_large (path fileText : Str) (offset limit : Option Nat)
    (hoff : startLineOf offset < (fileText.splitOn '\n').length)
    (hfl : (truncOf fileText offset limit).firstLineExceedsLimit = true) :
    readText path fileText offset limit =
      Except.ok [ContentPart.text (firstLineMsg path (startLineOf offset + 1)
        (utf8Len ((fileText.splitOn '\n').getD (startLineOf offset) [])))] := by
  rw [readText_ok path fileText offset limit hoff]
  have hfl2 : (truncateHead (List.intercalate ['\n']
      (selLinesOf (fileText.splitOn '\n') (startLineOf offset) limit))).firstLineExceedsLimit =
      true := hfl
  simp [formatOutput, hfl2]

/-- Witness for `C6_first_line_too_large`: a file that is one 30721-byte line
(beyond the 30720-byte cap) resolves with the redirect message. -/
theorem C6_first_line_too_large_witness :
    (startLineOf none < ((List.replicate 30721 'a' : Str).splitOn '\n').length ∧
      (truncOf (List.replicate 30721 'a') none none).firstLineExceedsLimit = true) ∧
    readText (lit "big.txt") (List.replicate 30721 'a') none none =
      Except.ok [ContentPart.text (firstLineMsg (lit "big.txt") (startLineOf none + 1)
        (utf8Len (((List.replicate 30721 'a' : Str).splitOn '\n').getD
          (startLineOf none) [])))] := by
  have hnot : '\n' ∉ (List.replicate 30721 'a' : Str) := by
    intro h
    have := List.eq_of_mem_replicate h
    simp at this
  have hsplitF : (List.replicate 30721 'a' : Str).splitOn '\n' =
      [List.replicate 30721 'a'] := splitOn_eq_single_char _ hnot
  have hbig : DEFAULT_MAX_BYTES < utf8Len (List.replicate 30721 'a') := by
    rw [utf8Len_replicate]
    have h1 : Char.utf8Size 'a' = 1 := by decide
    rw [h1]
    norm_num [DEFAULT_MAX_BYTES]
  have hoff : startLineOf none < ((List.replicate 30721 'a' : Str).splitOn '\n').length := by
    rw [hsplitF]
    decide
  have hsel : selContentOf (List.replicate 30721 'a') none none =
      List.replicate 30721 'a' := by
    simp only [selContentOf, hsplitF, selLinesOf, startLineOf, List.drop_zero]
    exact intercalate_single _ _
  have hfl : (truncOf (List.replicate 30721 'a') none none).firstLineExceedsLimit = true := by
    show (truncateHead (selContentOf (List.replicate 30721 'a') none
      none)).firstLineExceedsLimit = true
    rw [hsel]
    simp only [truncateHead, hsplitF, List.headD_cons]
    rw [if_pos hbig]
  exact ⟨⟨hoff, hfl⟩,
    C6_first_line_too_large (lit "big.txt") (List.replicate 30721 'a') none none hoff hfl⟩

/-- C1: the shape of the part sequence is fixed by the detected content type:
a detected image always yields exactly `[TextPart(note), ImagePart(data)]`
in that order (for any injected resize collaborators and either auto-resize
setting), and a text read yields exactly one `TextPart` whenever it
succeeds (when it rejects, no parts are produced at all). -/
theorem C1_parts_shape (resize : Str → Str → ResizedImage)
    (dimNote : ResizedImage → Option Str) (autoResizeImages debugWriteOk : Bool)
    (path mimeType : Str) (file : FileModel) (offset limit : Option Nat) :
    (∃ note data m, readExecute resize dimNote autoResizeImages debugWriteOk path
        (some mimeType) file offset limit =
        Except.ok [ContentPart.text note, ContentPart.image data m]) ∧
    ((∃ t, readExecute resize dimNote autoResizeImages debugWriteOk path none file
        offset limit = Except.ok [ContentPart.text t]) ∨
      (∃ e, readExecute resize dimNote autoResizeImages debugWriteOk path none file
        offset limit = Except.error e)) := by
  constructor
  · simp only [readExecute, imageContent]
    by_cases h : autoResizeImages
    · rw [if_pos h]
      exact ⟨_, _, _, rfl⟩
    · rw [if_neg h]
      exact ⟨_, _, _, rfl⟩
  · simp only [readExecute, readText]
    by_cases h : (file.text.splitOn '\n').length ≤ startLineOf offset
    · right
      rw [if_pos h]
      exact ⟨_, rfl⟩
    · left
      rw [if_neg h]
      exact ⟨_, rfl⟩

/-- C10: for a detected image the result is independent of `offset` and
`limit` — two requests on the same image differing only in those parameters
return identical part sequences — and such a read always resolves, so no
out-of-bounds offset error is ever raised on an image. -/
theorem C10_image_ignores_window (resize : Str → Str → ResizedImage)
    (dimNote : ResizedImage → Option Str) (autoResizeImages debugWriteOk : Bool)
    (path mimeType : Str) (file : FileModel) (o1 l1 o2 l2 : Option Nat) :
    readExecute resize dimNote autoResizeImages debugWriteOk path (some mimeType)
        file o1 l1 =
      readExecute resize dimNote autoResizeImages debugWriteOk path (some mimeType)
        file o2 l2 ∧
    ∃ parts, readExecute resize dimNote autoResizeImages debugWriteOk path
        (some mimeType) file o1 l1 = Except.ok parts :=
  ⟨rfl, ⟨_, rfl⟩⟩

/-- C7: a failure of the debug-copy write inside the swallowed `try`/`catch`
never surfaces: with auto-resize active the read resolves with exactly the
same parts whether the debug write succeeded or failed, the result is still
`ok`, and the failing case still emits its console log entry. -/
theorem C7_debug_write_swallowed (resize : Str → Str → ResizedImage)
    (dimNote : ResizedImage → Option Str) (path mimeType : Str) (file : FileModel)
    (offset limit : Option Nat) :
    readExecute resize dimNote true false path (some mimeType) file offset limit =
      readExecute resize dimNote true true path (some mimeType) file offset limit ∧
    (∃ parts, readExecute resize dimNote true false path (some mimeType) file
      offset limit = Except.ok parts) ∧
    (imageContent resize dimNote true false path file.base64 mimeType).2 =
      [debugLog false path] :=
  ⟨rfl, ⟨_, rfl⟩, rfl⟩

/-- C8, demonstration against the code: the abort listener of `read.ts`
(lines 92-96) is commented out, so the `aborted` flag can never become true
and a read whose abort signal fired before completion still resolves with
the full file content instead of ceasing work. -/
theorem C8_abort_dead_code :
    readExecuteWithAbort (fun b m => ⟨b, m⟩) (fun _ => none) true true
      (lit "f.txt") none ⟨[], lit "x"⟩ none none true =
      some (Except.ok [ContentPart.text (lit "x")]) := by
  decide
